import Mathlib

/-!
Verification of the logistic-regression model in
`src/mp3/codefromscratch/logistic_model.py`.

Python floats are embedded as elements of a linear ordered field `K`,
with the exponential `np.exp` passed in as a function `rexp : K → K`;
the intended reading, used in all claim theorems, is `K = ℝ` with
`rexp = Real.exp`.  Keeping the definitions polymorphic keeps them
computable, so they evaluate on concrete rational inputs.

numpy arrays are embedded as shape-carrying structures (`Vec`, `Mat`) so
that shape facts — which numpy tracks at runtime — are propositions about
the embedding.  Entries of a `Vec`/`Mat` beyond the declared shape are
irrelevant junk.
-/

open scoped BigOperators

/-- A numpy 1-D array (or column vector): an explicit length together with
the entries.  Entries at indices `≥ len` are unused junk. -/
structure Vec (K : Type) where
  len : ℕ
  val : ℕ → K

/-- A numpy 2-D array: an explicit shape `(rows, cols)` together with the
entries.  Entries outside the shape are unused junk. -/
structure Mat (K : Type) where
  rows : ℕ
  cols : ℕ
  val : ℕ → ℕ → K

/-- The observable content of a `Vec`: its entries in order.  Two vectors
with the same `toList` are indistinguishable to the program. -/
def Vec.toList {K : Type} (w : Vec K) : List K := (List.range w.len).map w.val

/-- The model state: `self.ndims`, `self.W_init` and `self.W`
(`none` models Python's `None`, left when initialization was skipped). -/
structure LogisticModel (K : Type) where
  ndims : ℕ
  W_init : String
  W : Option (Vec K)

section Model

variable {K : Type} [LinearOrderedField K] (rexp : K → K)

/-- Entry `i` of the row vector `np.dot(self.W.T, X.T)`: the linear score
`dot(W, x)` of the sample with features `x`.  (`self.W` has shape
`(ndims+1, 1)`, so `W.T` is `(1, ndims+1)` and the contraction runs over
the `len` entries of `W`.) -/
def dotRow (W : Vec K) (x : ℕ → K) : K :=
  ∑ j in Finset.range W.len, W.val j * x j

/-- `LogisticModel.__init__`.  The two random policies draw from
`np.random.uniform` / `np.random.normal`; the embedding receives those
draws as oracle streams `drawUniform`, `drawGaussian`.  An unrecognized
`W_init` prints a warning (a side effect outside the embedding) and leaves
`self.W` equal to `None`. -/
def init (ndims : ℕ) (W_init : String) (drawUniform drawGaussian : ℕ → K) :
    LogisticModel K :=
  { ndims := ndims
    W_init := W_init
    W :=
      if W_init = "zeros" then some ⟨ndims + 1, fun _ => 0⟩
      else if W_init = "ones" then some ⟨ndims + 1, fun _ => 1⟩
      else if W_init = "uniform" then some ⟨ndims + 1, drawUniform⟩
      else if W_init = "gaussian" then some ⟨ndims + 1, drawGaussian⟩
      else none }

/-- `save_model`: `self.W.astype('float32').tofile(weight_file)`.  The
file contents are the weight entries in index order, each passed through
the float32 cast; the cast is abstracted as an arbitrary function
`f32 : K → K` (the embedding works in exact arithmetic).  The model state
itself is not touched by `save_model`. -/
def save_model (f32 : K → K) (w : Vec K) : List K :=
  (List.range w.len).map (fun j => f32 (w.val j))

/-- `load_model`: `self.W = np.fromfile(weight_file, dtype=np.float32)`.
Replaces `W` with the file contents, in file order, with no length
check against `ndims`. -/
def load_model (M : LogisticModel K) (file : List K) : LogisticModel K :=
  { M with W := some ⟨file.length, fun i => file.getD i 0⟩ }

/-- `sigmoid`: `1 / (1 + np.exp(-x))`. -/
def sigmoid (x : K) : K := 1 / (1 + rexp (-x))

/-- `forward`: `D = np.dot(self.W.T, X.T); S = self.sigmoid(D)`.  The
source value has shape `(1, num_samples)`; the embedding keeps the one
row, i.e. one probability per sample.  Pure: reads `W` and `X` only. -/
def forward (W : Vec K) (X : Mat K) : Vec K :=
  ⟨X.rows, fun i => sigmoid rexp (dotRow W (X.val i))⟩

/-- `backward`, following the source line by line:
`D = np.dot(self.W.T, X.T)`, `E = np.exp(-Y_true * D)`, `N = -Y_true*E`,
`D = 1+E`, `F = N/D`, `G = np.dot(X.T, F.T)`.  The result has one entry
per column of `X`. -/
def backward (W : Vec K) (Y : Vec K) (X : Mat K) : Vec K :=
  let D : ℕ → K := fun i => dotRow W (X.val i)
  let E : ℕ → K := fun i => rexp (-Y.val i * D i)
  let N : ℕ → K := fun i => -Y.val i * E i
  let D2 : ℕ → K := fun i => 1 + E i
  let F : ℕ → K := fun i => N i / D2 i
  ⟨X.cols, fun j => ∑ i in Finset.range X.rows, X.val i j * F i⟩

/-- `classify`: `P = self.forward(X); C = (P > 0.5) * 2 - 1` — the boolean
is promoted to `1`/`0` and mapped affinely to `+1`/`-1`. -/
def classify (W : Vec K) (X : Mat K) : Vec K :=
  ⟨X.rows, fun i =>
    (if (forward rexp W X).val i > 0.5 then (1 : K) else 0) * 2 - 1⟩

/-- One iteration of the `fit` loop:
`G = self.backward(Y_true, X); self.W -= G * learn_rate`. -/
def fitStep (Y : Vec K) (X : Mat K) (lr : K) (W : Vec K) : Vec K :=
  ⟨W.len, fun j => W.val j - (backward rexp W Y X).val j * lr⟩

/-- `fit`: `for i in range(max_iters): ...` — a Python `range` over an
integer, empty when `max_iters ≤ 0`.  The `print(i)` side effect is
outside the embedding. -/
def fit (Y : Vec K) (X : Mat K) (lr : K) (max_iters : ℤ) (W : Vec K) :
    Vec K :=
  (List.range max_iters.toNat).foldl (fun Wc _ => fitStep rexp Y X lr Wc) W

/-! Definitions taken from the spec's words, for the refinement claims. -/

/-- Spec-side gradient: per-sample linear score `D = dot(W, x)`, term
`E = exp(-y * D)`, contribution `F = (-y * E) / (1 + E)`, aggregate
`G = Xᵗ · F`. -/
def gradSpec (W : Vec K) (Y : Vec K) (X : Mat K) : Vec K :=
  ⟨X.cols, fun j => ∑ i in Finset.range X.rows,
    X.val i j * ((-Y.val i * rexp (-Y.val i * dotRow W (X.val i))) /
      (1 + rexp (-Y.val i * dotRow W (X.val i))))⟩

/-- Spec-side sigmoid: the elementwise logistic function `1/(1+exp(-x))`. -/
def sigmoidSpec (x : K) : K := 1 / (1 + rexp (-x))

/-- Spec-side forward: `sigmoid(dot(W, X_row))` for every sample row. -/
def forwardSpec (W : Vec K) (X : Mat K) : Vec K :=
  ⟨X.rows, fun i => sigmoidSpec rexp (dotRow W (X.val i))⟩

/-- The data-model invariant: whenever the weight vector is set, it has
length `ndims + 1`. -/
def lenInv (M : LogisticModel K) : Prop :=
  ∀ w, M.W = some w → w.len = M.ndims + 1

end Model

/-- Folding a constant-step function over `List.range k` iterates it `k`
times. -/
lemma foldl_range_const {α : Type} (f : α → α) (a : α) :
    ∀ k : ℕ, (List.range k).foldl (fun x _ => f x) a = f^[k] a := by
  intro k
  induction k generalizing a with
  | zero => rfl
  | succ n ih =>
      rw [List.range_succ, List.foldl_append, ih, Function.iterate_succ_apply']
      rfl

/-- Reading back a list by positional lookup reproduces the list. -/
lemma map_range_getD {α : Type} (l : List α) (d : α) :
    (List.range l.length).map (fun i => l.getD i d) = l := by
  apply List.ext_getElem
  · simp
  · intro i h1 h2
    simp [List.getD_eq_getElem?_getD, List.getElem?_eq_getElem h2]

/-! Claim theorems.  All are stated at the intended semantics `K = ℝ`,
`rexp = Real.exp`. -/

/-- C1: for every weight vector `W`, bias-augmented feature matrix `X`
(`ndims+1` columns) and label vector `Y` with entries in `{+1, -1}`,
`backward` returns the vector of length `ndims+1` given by the spec's
formula: per-sample score `D = dot(W, x)`, term `E = exp(-y*D)`,
contribution `F = (-y*E)/(1+E)`, aggregate `G = Xᵗ·F`. -/
theorem backward_matches_spec_gradient (ndims : ℕ) (W Y : Vec ℝ) (X : Mat ℝ)
    (hX : X.cols = ndims + 1)
    (_hY : ∀ i < Y.len, Y.val i = 1 ∨ Y.val i = -1) :
    (backward Real.exp W Y X).len = ndims + 1 ∧
    backward Real.exp W Y X = gradSpec Real.exp W Y X := by
  constructor
  · simpa [backward] using hX
  · rfl

/-- C1 witness: the theorem applied at a concrete model and dataset. -/
theorem backward_matches_spec_gradient_witness :
    (backward Real.exp (⟨2, fun _ => 0⟩ : Vec ℝ) ⟨1, fun _ => 1⟩
        ⟨1, 2, fun _ _ => 1⟩).len = 1 + 1 ∧
    backward Real.exp (⟨2, fun _ => 0⟩ : Vec ℝ) ⟨1, fun _ => 1⟩
        ⟨1, 2, fun _ _ => 1⟩ =
      gradSpec Real.exp ⟨2, fun _ => 0⟩ ⟨1, fun _ => 1⟩ ⟨1, 2, fun _ _ => 1⟩ :=
  backward_matches_spec_gradient 1 _ _ _ rfl (fun _ _ => Or.inl rfl)

/-- C2: `fit` with a non-negative iteration count `k` performs exactly `k`
iterations, each replacing `W` by `W - learn_rate * backward(Y, X)`; the
terminal weights are the `k`-fold iterate and there is no other stopping
condition. -/
theorem fit_runs_exactly_max_iters (Y : Vec ℝ) (X : Mat ℝ) (lr : ℝ)
    (W : Vec ℝ) (k : ℕ) :
    fit Real.exp Y X lr (k : ℤ) W = (fitStep Real.exp Y X lr)^[k] W ∧
    ∀ V : Vec ℝ, (fitStep Real.exp Y X lr V).len = V.len ∧
      ∀ j, (fitStep Real.exp Y X lr V).val j =
        V.val j - lr * (backward Real.exp V Y X).val j := by
  refine ⟨?_, fun V => ⟨rfl, fun j => ?_⟩⟩
  · unfold fit
    rw [Int.toNat_natCast]
    exact foldl_range_const _ W k
  · simp [fitStep, mul_comm]

/-- C3: `forward` returns one value per sample row, namely
`sigmoid(dot(W, X_row))` with `sigmoid(x) = 1/(1+exp(-x))`; it is a pure
function of `W` and `X` (it is a plain function of them in the
embedding). -/
theorem forward_matches_spec (W : Vec ℝ) (X : Mat ℝ) :
    (forward Real.exp W X).len = X.rows ∧
    forward Real.exp W X = forwardSpec Real.exp W X ∧
    ∀ i, (forward Real.exp W X).val i =
      sigmoidSpec Real.exp (dotRow W (X.val i)) :=
  ⟨rfl, rfl, fun _ => rfl⟩

/-- C4: `classify` returns only values in `{+1, -1}`; per sample the label
is `+1` exactly when the `forward` output is `> 0.5`, and `-1` otherwise;
a probability of exactly `0.5` maps to `-1`. -/
theorem classify_thresholds_forward (W : Vec ℝ) (X : Mat ℝ) (i : ℕ) :
    ((classify Real.exp W X).val i = 1 ∨ (classify Real.exp W X).val i = -1) ∧
    ((classify Real.exp W X).val i = 1 ↔ (forward Real.exp W X).val i > 0.5) ∧
    ((forward Real.exp W X).val i = 0.5 → (classify Real.exp W X).val i = -1) ∧
    (classify Real.exp W X).len = X.rows := by
  have hval : (classify Real.exp W X).val i
      = (if (forward Real.exp W X).val i > 0.5 then (1 : ℝ) else 0) * 2 - 1 :=
    rfl
  by_cases h : (forward Real.exp W X).val i > 0.5
  · rw [if_pos h] at hval
    norm_num at hval
    exact ⟨Or.inl hval, ⟨fun _ => h, fun _ => hval⟩,
      fun he => absurd h (by rw [he]; exact lt_irrefl _), rfl⟩
  · rw [if_neg h] at hval
    norm_num at hval
    refine ⟨Or.inr hval, ⟨fun h1 => ?_, fun hgt => absurd hgt h⟩,
      fun _ => hval, rfl⟩
    rw [hval] at h1
    norm_num at h1

/-- C5: for every `ndims`, constructing with `W_init = 'zeros'` yields a
weight vector of length `ndims+1` with every element `0`, and with
`W_init = 'ones'` a weight vector of length `ndims+1` with every element
`1`. -/
theorem init_zeros_ones_weights (ndims : ℕ) (dU dG : ℕ → ℝ) :
    (init ndims "zeros" dU dG).W = some ⟨ndims + 1, fun _ => 0⟩ ∧
    (init ndims "ones" dU dG).W = some ⟨ndims + 1, fun _ => 1⟩ := by
  constructor <;> simp [init]

/-- C4 witness: the theorem applied at a concrete model, dataset and
sample index. -/
theorem classify_thresholds_forward_witness :
    (((classify Real.exp (⟨1, fun _ => 0⟩ : Vec ℝ) ⟨1, 1, fun _ _ => 0⟩).val 0
        = 1) ∨
      ((classify Real.exp (⟨1, fun _ => 0⟩ : Vec ℝ) ⟨1, 1, fun _ _ => 0⟩).val 0
        = -1)) ∧
    (((classify Real.exp (⟨1, fun _ => 0⟩ : Vec ℝ) ⟨1, 1, fun _ _ => 0⟩).val 0
        = 1) ↔
      ((forward Real.exp (⟨1, fun _ => 0⟩ : Vec ℝ) ⟨1, 1, fun _ _ => 0⟩).val 0
        > 0.5)) ∧
    (((forward Real.exp (⟨1, fun _ => 0⟩ : Vec ℝ) ⟨1, 1, fun _ _ => 0⟩).val 0
        = 0.5) →
      ((classify Real.exp (⟨1, fun _ => 0⟩ : Vec ℝ) ⟨1, 1, fun _ _ => 0⟩).val 0
        = -1)) ∧
    (classify Real.exp (⟨1, fun _ => 0⟩ : Vec ℝ) ⟨1, 1, fun _ _ => 0⟩).len = 1 :=
  classify_thresholds_forward ⟨1, fun _ => 0⟩ ⟨1, 1, fun _ _ => 0⟩ 0

/-- C6: saving and then loading on the same path reconstructs the weight
vector: the reloaded weights are exactly the float32 casts of the
original entries, in order (the cast `f32` is abstract; the embedding's
arithmetic is exact). -/
theorem save_load_roundtrip (M : LogisticModel ℝ) (f32 : ℝ → ℝ) (w : Vec ℝ) :
    ∃ w2, (load_model M (save_model f32 w)).W = some w2 ∧
      w2.toList = w.toList.map f32 ∧ w2.len = w.len := by
  refine ⟨⟨(save_model f32 w).length, fun i => (save_model f32 w).getD i 0⟩,
    rfl, ?_, by simp [save_model]⟩
  show (List.range (save_model f32 w).length).map
      (fun i => (save_model f32 w).getD i 0) = w.toList.map f32
  rw [map_range_getD]
  simp [save_model, Vec.toList, List.map_map]

/-- C7: every value `forward` returns lies in the open interval (0, 1)
(the embedding's reals are all finite, matching the claim's finiteness
proviso). -/
theorem forward_output_in_open_unit_interval (W : Vec ℝ) (X : Mat ℝ)
    (i : ℕ) :
    0 < (forward Real.exp W X).val i ∧ (forward Real.exp W X).val i < 1 := by
  simp only [forward, sigmoid]
  have he : 0 < Real.exp (-dotRow W (X.val i)) := Real.exp_pos _
  have hd : (0 : ℝ) < 1 + Real.exp (-dotRow W (X.val i)) := by linarith
  constructor
  · exact div_pos one_pos hd
  · rw [div_lt_one hd]
    linarith

/-- C9: constructing with a `W_init` other than the four recognized policy
names skips initialization and leaves `W` unset (`none`), raising no
exception; any later use of the weights therefore fails. -/
theorem init_unknown_policy_leaves_W_unset (ndims : ℕ) (dU dG : ℕ → ℝ)
    (s : String) (h1 : s ≠ "zeros") (h2 : s ≠ "ones") (h3 : s ≠ "uniform")
    (h4 : s ≠ "gaussian") :
    (init ndims s dU dG).W = none := by
  simp [init, h1, h2, h3, h4]

/-- C9 witness: the theorem applied at the concrete policy name
`"xavier"`. -/
theorem init_unknown_policy_leaves_W_unset_witness :
    (init 4 "xavier" (fun _ => 0) (fun _ => 0) : LogisticModel ℝ).W = none :=
  init_unknown_policy_leaves_W_unset 4 _ _ "xavier" (by decide) (by decide)
    (by decide) (by decide)

/-- C10: `fit` with `max_iters ≤ 0` runs zero loop iterations (Python's
`range` of a non-positive integer is empty) and returns the weights
unchanged; nothing else in the model is touched by `fit`. -/
theorem fit_nonpos_max_iters_noop (Y : Vec ℝ) (X : Mat ℝ) (lr : ℝ)
    (max_iters : ℤ) (W : Vec ℝ) (h : max_iters ≤ 0) :
    fit Real.exp Y X lr max_iters W = W := by
  unfold fit
  rw [Int.toNat_of_nonpos h]
  rfl

/-- C10 witness: the theorem applied at a concrete dataset with
`max_iters = -5`. -/
theorem fit_nonpos_max_iters_noop_witness :
    fit Real.exp (⟨1, fun _ => 1⟩ : Vec ℝ) ⟨1, 2, fun _ _ => 1⟩ 1 (-5)
      ⟨2, fun _ => 0⟩ = ⟨2, fun _ => 0⟩ :=
  fit_nonpos_max_iters_noop _ _ _ (-5) _ (by decide)

/-- C8 counterexample: the length invariant is NOT preserved by
`load_model` as the claim states.  A model built with `ndims = 1` (so `W`
has length 2) satisfies the invariant, but loading a weight file holding
a single value replaces `W` with a vector of length 1 — `load_model`
performs no length check. -/
theorem load_model_can_break_len_invariant :
    lenInv (init 1 "zeros" (fun _ => (0 : ℝ)) (fun _ => 0)) ∧
    ¬ lenInv (load_model (init 1 "zeros" (fun _ => (0 : ℝ)) (fun _ => 0))
        [0]) := by
  constructor
  · rintro ⟨n, f⟩ hw
    simp [init] at hw
    obtain ⟨h1, -⟩ := hw
    simp [init]
    omega
  · intro h
    have h2 := h ⟨([0] : List ℝ).length, fun i => ([0] : List ℝ).getD i 0⟩ rfl
    simp [load_model, init] at h2

/-- C8 amended: the invariant `len W = ndims + 1` holds after construction
with any of the four named policies and is preserved by `fit`; `save_model`
does not touch the model and writes a file of exactly `len W` values; and
`load_model` preserves the invariant exactly when the loaded file holds
`ndims + 1` values (as a file written by `save_model` from a model with
the same `ndims` does) — a file of any other length replaces `W` by a
vector of that other length. -/
theorem len_invariant_amended :
    (∀ (ndims : ℕ) (dU dG : ℕ → ℝ) (s : String),
        s = "zeros" ∨ s = "ones" ∨ s = "uniform" ∨ s = "gaussian" →
        lenInv (init ndims s dU dG)) ∧
    (∀ (Y : Vec ℝ) (X : Mat ℝ) (lr : ℝ) (max_iters : ℤ) (W : Vec ℝ),
        (fit Real.exp Y X lr max_iters W).len = W.len) ∧
    (∀ (f32 : ℝ → ℝ) (w : Vec ℝ), (save_model f32 w).length = w.len) ∧
    (∀ (M : LogisticModel ℝ) (file : List ℝ),
        file.length = M.ndims + 1 → lenInv (load_model M file)) := by
  refine ⟨?_, ?_, ?_, ?_⟩
  · rintro ndims dU dG s (rfl | rfl | rfl | rfl) <;>
      (rintro ⟨n, f⟩ hw; simp [init] at hw ⊢) <;> omega
  · intro Y X lr max_iters W
    unfold fit
    rw [foldl_range_const]
    generalize max_iters.toNat = k
    induction k with
    | zero => rfl
    | succ n ih => rw [Function.iterate_succ_apply']; exact ih
  · intro f32 w
    simp [save_model]
  · rintro M file hlen ⟨n, f⟩ hw
    simp [load_model] at hw
    obtain ⟨h1, -⟩ := hw
    simp [load_model]
    omega

/-- C8 amended witness: the amended theorem applied at a concrete policy
(`"gaussian"`, `ndims = 3`) and at a concrete matching-length load
(`ndims = 1`, a two-value file). -/
theorem len_invariant_amended_witness :
    lenInv (init 3 "gaussian" (fun _ => (0 : ℝ)) (fun _ => 0)) ∧
    lenInv (load_model (init 1 "zeros" (fun _ => (0 : ℝ)) (fun _ => 0))
      [5, 7]) :=
  ⟨len_invariant_amended.1 3 _ _ "gaussian" (Or.inr (Or.inr (Or.inr rfl))),
   len_invariant_amended.2.2.2 _ [5, 7] rfl⟩
